import Mathlib

/-!
Verification of the vitals daily-aggregation core: a shallow embedding of the
in-memory event-log repository (`internal/adapter/memory`), the application
services (`internal/app`: WeightService, WaterService, ChartsService) and the
unit converter (`internal/domain`), together with theorems about their
behaviour.

Modelling conventions:
- Go `time.Time` instants are modelled as `Int` (seconds since the epoch).
  `t.UTC()` and `t.In(loc)` do not change the instant in Go, so they are
  identities in the model; `After`/`Before` are `<` on instants.
- The process-wide local timezone (`time.Local`) is modelled as a fixed offset
  `tz : Int` in seconds east of UTC.  A `"2006-01-02"` local-day string that
  parses is modelled by its day index `d : Int` (days since the epoch in the
  local calendar); `time.ParseInLocation("2006-01-02", day, time.Local)` then
  yields the UTC instant `d * 86400 - tz`, and
  `t.In(time.Local).Format("2006-01-02")` yields `(t + tz).fdiv 86400`.
  The parse-error branches of the repository functions are unreachable in this
  model because a day index always denotes a well-formed date string.
- Go `float64` values (weights, litres) are modelled as `ℚ`.
- Go's unstable `sort.Slice` with comparator `CreatedAt.After` is modelled by
  `List.insertionSort` with the corresponding total descending relation.
- A Go function returning `(T, error)` is modelled as returning `T × Option
  String` (abstract fallible ports) or `Except String T` / `Option T` where the
  in-memory repository can only fail by panicking (slice bound violation).
-/

namespace Vitals

/-- `domain.WeightEntry`: a weight event.  `day` models the `Day` string field;
`none` models the empty string (events are stored with `Day` unset). -/
structure WeightEntry where
  id : Int
  userId : Int
  day : Option Int
  value : ℚ
  unit : String
  createdAt : Int
deriving DecidableEq

/-- `domain.WaterEvent`: a signed water-intake event. -/
structure WaterEvent where
  id : Int
  userId : Int
  deltaLiters : ℚ
  createdAt : Int
deriving DecidableEq

/-- `memory.DB`: the in-memory event log (weight slice, water slice, id
counters).  User and session storage is out of scope. -/
structure DB where
  weights : List WeightEntry
  waterEvents : List WaterEvent
  weightIdCounter : Int
  waterIdCounter : Int
deriving DecidableEq

/-- UTC instant of local midnight of day `d`: model of
`time.ParseInLocation("2006-01-02", localDay, time.Local)`. -/
def dayStartUTC (tz d : Int) : Int := d * 86400 - tz

/-- Local day index of an instant: model of
`t.In(time.Local).Format("2006-01-02")`. -/
def formatLocalDay (tz t : Int) : Int := (t + tz).fdiv 86400

/-- The filter the repository applies to weight events when aggregating a
local day: same user, `createdAt` in the half-open 24h interval. -/
def weightInDay (u tz d : Int) (w : WeightEntry) : Prop :=
  w.userId = u ∧ dayStartUTC tz d ≤ w.createdAt ∧ w.createdAt < dayStartUTC tz d + 86400

instance (u tz d : Int) (w : WeightEntry) : Decidable (weightInDay u tz d w) := by
  unfold weightInDay; infer_instance

/-- Same filter for water events. -/
def waterInDay (u tz d : Int) (w : WaterEvent) : Prop :=
  w.userId = u ∧ dayStartUTC tz d ≤ w.createdAt ∧ w.createdAt < dayStartUTC tz d + 86400

instance (u tz d : Int) (w : WaterEvent) : Decidable (waterInDay u tz d w) := by
  unfold waterInDay; infer_instance

/-- Loop body of `DB.LatestWeightForLocalDay`: skip other users' events, skip
events outside the day, otherwise take the current event when
`latest == nil || w.CreatedAt.After(latest.CreatedAt)` (ties keep the
earlier-indexed event because `After` is strict). -/
def latestStep (u tz d : Int) (acc : Option WeightEntry) (w : WeightEntry) :
    Option WeightEntry :=
  if w.userId ≠ u then acc
  else if dayStartUTC tz d ≤ w.createdAt ∧ w.createdAt < dayStartUTC tz d + 86400 then
    if acc.all (fun l => l.createdAt < w.createdAt) then some w else acc
  else acc

/-- `DB.LatestWeightForLocalDay`: scan the weight slice for the user's latest
event within the day's half-open UTC interval; return a copy with `Day` set to
the queried day, or `none`. -/
def LatestWeightForLocalDay (db : DB) (u d tz : Int) : Option WeightEntry :=
  (db.weights.foldl (latestStep u tz d) none).map (fun l => { l with day := some d })

/-- `DB.WaterTotalForLocalDay`: sum of `deltaLiters` over the user's water
events within the day's half-open UTC interval. -/
def WaterTotalForLocalDay (db : DB) (u d tz : Int) : ℚ :=
  db.waterEvents.foldl
    (fun total w =>
      if w.userId ≠ u then total
      else if dayStartUTC tz d ≤ w.createdAt ∧ w.createdAt < dayStartUTC tz d + 86400 then
        total + w.deltaLiters
      else total)
    0

/-- Descending-by-`createdAt` order on weight entries, the comparator the Go
code passes to `sort.Slice`. -/
def weightDesc (a b : WeightEntry) : Prop := b.createdAt ≤ a.createdAt

instance : DecidableRel weightDesc := fun a b =>
  inferInstanceAs (Decidable (b.createdAt ≤ a.createdAt))

instance : IsTotal WeightEntry weightDesc :=
  ⟨fun a b => le_total b.createdAt a.createdAt⟩

instance : IsTrans WeightEntry weightDesc :=
  ⟨fun _ _ _ h1 h2 => le_trans h2 h1⟩

/-- Descending-by-`createdAt` order on water events. -/
def waterDesc (a b : WaterEvent) : Prop := b.createdAt ≤ a.createdAt

instance : DecidableRel waterDesc := fun a b =>
  inferInstanceAs (Decidable (b.createdAt ≤ a.createdAt))

instance : IsTotal WaterEvent waterDesc :=
  ⟨fun a b => le_total b.createdAt a.createdAt⟩

instance : IsTrans WaterEvent waterDesc :=
  ⟨fun _ _ _ h1 h2 => le_trans h2 h1⟩

/-- `DB.ListRecentWeightEvents`: filter by user, sort descending by
`createdAt`, truncate to `limit`, then derive each entry's `Day` label from
its own `createdAt` in local time.  The Go truncation `filtered[:limit]` is
only executed when `len(filtered) > limit` and panics when `limit < 0`; the
panic is modelled as `none`. -/
def ListRecentWeightEvents (db : DB) (u : Int) (limit : Int) (tz : Int) :
    Option (List WeightEntry) :=
  let filtered := db.weights.filter (fun w => w.userId = u)
  let sorted := filtered.insertionSort weightDesc
  let truncated :=
    if (sorted.length : Int) > limit then
      if 0 ≤ limit then some (sorted.take limit.toNat) else none
    else some sorted
  truncated.map (List.map (fun w => { w with day := some (formatLocalDay tz w.createdAt) }))

/-- `DB.ListRecentWaterEvents`: filter by user, sort descending by
`createdAt`, truncate to `limit` (same panic model for a negative limit). -/
def ListRecentWaterEvents (db : DB) (u : Int) (limit : Int) :
    Option (List WaterEvent) :=
  let filtered := db.waterEvents.filter (fun w => w.userId = u)
  let sorted := filtered.insertionSort waterDesc
  if (sorted.length : Int) > limit then
    if 0 ≤ limit then some (sorted.take limit.toNat) else none
  else some sorted

/-- Index scan of `DB.DeleteLatestWeightEvent`: position and value of the
first-indexed maximum-`createdAt` weight event of user `u` (the Go loop keeps
the earlier index on ties because its comparison `After` is strict). -/
def findLatestWeightIdx (u : Int) : List WeightEntry → Option (Nat × WeightEntry)
  | [] => none
  | w :: ws =>
    let rest := (findLatestWeightIdx u ws).map (fun q => (q.1 + 1, q.2))
    if w.userId = u then
      match rest with
      | none => some (0, w)
      | some q => if w.createdAt < q.2.createdAt then some q else some (0, w)
    else rest

/-- `DB.DeleteLatestWeightEvent`: remove the user's most recent weight event
(anywhere in time); report whether something was deleted. -/
def DeleteLatestWeightEvent (db : DB) (u : Int) : Bool × DB :=
  if db.weights.isEmpty then (false, db)
  else
    match findLatestWeightIdx u db.weights with
    | some q => (true, { db with weights := db.weights.eraseIdx q.1 })
    | none => (false, db)

/-- `DB.AddWeightEvent`: bump the id counter and append; `Day` is left unset. -/
def AddWeightEvent (db : DB) (u : Int) (value : ℚ) (unit : String) (createdAt : Int) :
    Int × DB :=
  let i := db.weightIdCounter + 1
  (i, { db with weightIdCounter := i,
                weights := db.weights ++ [⟨i, u, none, value, unit, createdAt⟩] })

/-- `DB.AddWaterEvent`: bump the id counter and append. -/
def AddWaterEvent (db : DB) (u : Int) (deltaLiters : ℚ) (createdAt : Int) :
    Int × DB :=
  let i := db.waterIdCounter + 1
  (i, { db with waterIdCounter := i,
                waterEvents := db.waterEvents ++ [⟨i, u, deltaLiters, createdAt⟩] })

/-- Loop of `DB.DeleteWaterEvent`: remove the first event matching both id and
user (the Go loop returns after the first hit; no hit is not an error). -/
def removeFirstWater (u i : Int) : List WaterEvent → List WaterEvent
  | [] => []
  | w :: ws => if w.id = i ∧ w.userId = u then ws else w :: removeFirstWater u i ws

/-- `DB.DeleteWaterEvent`. -/
def DeleteWaterEvent (db : DB) (u i : Int) : DB :=
  { db with waterEvents := removeFirstWater u i db.waterEvents }

/-- `domain.kgToLb`, exact as a rational. -/
def kgToLb : ℚ := 2.2046226218

/-- `domain.ConvertWeight`: unit conversion with same-unit and
unrecognised-unit pass-through. -/
def ConvertWeight (v : ℚ) (fromUnit toUnit : String) : ℚ :=
  if fromUnit = toUnit then v
  else if fromUnit = "kg" ∧ toUnit = "lb" then v * kgToLb
  else if fromUnit = "lb" ∧ toUnit = "kg" then v / kgToLb
  else v

/-- `app.WeightService.RecordWeight` over the in-memory repository: validate,
compute today from `now`, append, recompute latest-for-today.  The result pair
carries the final repository state so that the no-partial-application property
is expressible. -/
def RecordWeight (db : DB) (u : Int) (value : ℚ) (unit : String) (now tz : Int) :
    Except String (Option WeightEntry × Int) × DB :=
  if value ≤ 0 then (.error "value must be > 0", db)
  else if unit ≠ "kg" ∧ unit ≠ "lb" then (.error "unit must be kg or lb", db)
  else
    let today := formatLocalDay tz now
    let db' := (AddWeightEvent db u value unit now).2
    (.ok (LatestWeightForLocalDay db' u today tz, today), db')

/-- `app.WeightService.UndoLast` over the in-memory repository (which never
returns an error): delete the globally most recent weight event, then
recompute latest-for-today. -/
def WeightUndoLast (db : DB) (u : Int) (now tz : Int) :
    (Bool × Option WeightEntry × Int) × DB :=
  let today := formatLocalDay tz now
  let p := DeleteLatestWeightEvent db u
  ((p.1, LatestWeightForLocalDay p.2 u today tz, today), p.2)

/-- `app.WaterService.UndoLast` over the in-memory repository: read the single
most recent event via `ListRecentWaterEvents(u, 1)`, then delete it by id.
`none` models a panic inside the list call (impossible for limit 1). -/
def WaterUndoLast (db : DB) (u : Int) : Option ((Bool × Int) × DB) :=
  match ListRecentWaterEvents db u 1 with
  | none => none
  | some [] => some ((false, 0), db)
  | some (e :: _) => some ((true, e.id), DeleteWaterEvent db u e.id)

/-- `app.WeightPoint`. -/
structure WeightPoint where
  value : ℚ
  unit : String
deriving DecidableEq

/-- `app.DayPoint`. -/
structure DayPoint where
  day : Int
  waterLiters : ℚ
  weight : Option WeightPoint
deriving DecidableEq

/-- Body of the `GetDaily` loop for one day over the in-memory repository:
water total, latest weight converted to the requested unit when it differs. -/
def mkDayPoint (db : DB) (u : Int) (d : Int) (unit : String) (tz : Int) : DayPoint :=
  let water := WaterTotalForLocalDay db u d tz
  let wp := (LatestWeightForLocalDay db u d tz).map (fun e =>
    ⟨if e.unit ≠ unit then ConvertWeight e.value e.unit unit else e.value, unit⟩)
  ⟨d, water, wp⟩

/-- `app.ChartsService.GetDaily` over the in-memory repository: validate the
unit, clamp `days` to 366, then emit one `DayPoint` per day from
`today - (days-1)` up to `today`.  The repository calls cannot fail here (day
strings produced by `Format` always re-parse), matching the claim's
no-repository-failure hypothesis. -/
def GetDaily (db : DB) (u : Int) (todayIdx : Int) (days : Int) (unit : String) (tz : Int) :
    Except String (List DayPoint) :=
  if unit ≠ "kg" ∧ unit ≠ "lb" then .error "unit must be kg or lb"
  else
    let d2 := if days > 366 then 366 else days
    .ok ((List.range d2.toNat).map
      (fun (k : Nat) => mkDayPoint db u (todayIdx - (d2 - 1 - (k : Int))) unit tz))

/-- Abstract fallible weight port for one fixed user, mirroring
`domain.WeightRepository` with the outcome of each call: a Go `(T, error)`
return is the pair `T × Option String`. -/
structure WeightRepoCalls where
  addEvent : ℚ → String → Int → Int × Option String
  deleteLatest : Bool × Option String
  latestForDay : Int → Option WeightEntry × Option String
  listRecent : Int → List WeightEntry × Option String

/-- `app.WeightService.GetTodayWeight` against the abstract fallible port:
a one-line delegation to `LatestWeightForLocalDay`. -/
def SvcGetTodayWeight (r : WeightRepoCalls) (today : Int) :
    Option WeightEntry × Option String :=
  r.latestForDay today

/-- `app.WeightService.RecordWeight` against the abstract fallible port:
validate, compute today, append (propagating its error), then recompute
latest-for-today, propagating that call's error too.  The `Option Int` day
models Go's `""` (validation failure) versus a real day string. -/
def SvcRecordWeight (r : WeightRepoCalls) (value : ℚ) (unit : String) (now tz : Int) :
    (Option WeightEntry × Option Int) × Option String :=
  if value ≤ 0 then ((none, none), some "value must be > 0")
  else if unit ≠ "kg" ∧ unit ≠ "lb" then ((none, none), some "unit must be kg or lb")
  else
    let today := formatLocalDay tz now
    match r.addEvent value unit now with
    | (_, some e) => ((none, some today), some e)
    | (_, none) =>
      let p := r.latestForDay today
      ((p.1, some today), p.2)

/-- `app.WeightService.ListRecent` against the abstract fallible port:
a one-line delegation to `ListRecentWeightEvents`. -/
def SvcListRecentWeight (r : WeightRepoCalls) (limit : Int) :
    List WeightEntry × Option String :=
  r.listRecent limit

/-- `app.WeightService.UndoLast` against the abstract fallible port, faithful
to the Go control flow: a deletion error is returned; the error of the
latest-for-today recomputation is discarded (`entry, _ :=` in the source). -/
def SvcWeightUndoLast (r : WeightRepoCalls) (today : Int) :
    (Bool × Option WeightEntry × Int) × Option String :=
  match r.deleteLatest with
  | (_, some e) => ((false, none, today), some e)
  | (deleted, none) => ((deleted, (r.latestForDay today).1, today), none)

/-- Abstract fallible water port for one fixed user, mirroring
`domain.WaterRepository`. -/
structure WaterRepoCalls where
  addEvent : ℚ → Int → Int × Option String
  deleteEvent : Int → Option String
  listRecent : Int → List WaterEvent × Option String
  totalForDay : Int → ℚ × Option String

/-- `app.WaterService.GetTodayTotal` against the abstract fallible port:
a one-line delegation to `WaterTotalForLocalDay`. -/
def SvcGetTodayTotal (r : WaterRepoCalls) (today : Int) : ℚ × Option String :=
  r.totalForDay today

/-- `app.WaterService.RecordEvent` against the abstract fallible port:
validate the delta, then delegate to `AddWaterEvent`, returning its result
and error unchanged. -/
def SvcRecordWaterEvent (r : WaterRepoCalls) (delta : ℚ) (now : Int) :
    Int × Option String :=
  if delta = 0 ∨ delta < -10 ∨ delta > 10 then
    (0, some "deltaLiters must be non-zero and within [-10, 10]")
  else r.addEvent delta now

/-- `app.WaterService.ListRecent` against the abstract fallible port:
a one-line delegation to `ListRecentWaterEvents`. -/
def SvcListRecentWater (r : WaterRepoCalls) (limit : Int) :
    List WaterEvent × Option String :=
  r.listRecent limit

/-- `app.WaterService.UndoLast` against the abstract fallible port, faithful
to the Go control flow: a failing list call is propagated, an empty list
returns `(false, 0)` with no error, and a failing delete is propagated. -/
def SvcWaterUndoLast (r : WaterRepoCalls) : (Bool × Int) × Option String :=
  match r.listRecent 1 with
  | (_, some e) => ((false, 0), some e)
  | (items, none) =>
    match items with
    | [] => ((false, 0), none)
    | e :: _ =>
      match r.deleteEvent e.id with
      | some err => ((false, 0), some err)
      | none => ((true, e.id), none)

/-- Abstract fallible ports for `ChartsService.GetDaily`. -/
structure ChartsRepoCalls where
  waterTotal : Int → ℚ × Option String
  latestForDay : Int → Option WeightEntry × Option String

/-- One iteration of the `GetDaily` loop against the abstract ports: on the
first failing call the loop returns that error and makes no further calls. -/
def svcDayStep (r : ChartsRepoCalls) (unit : String) (day : Int)
    (acc : Except String (List DayPoint)) : Except String (List DayPoint) :=
  match acc with
  | .error e => .error e
  | .ok pts =>
    match r.waterTotal day with
    | (_, some e) => .error e
    | (water, none) =>
      match r.latestForDay day with
      | (_, some e) => .error e
      | (entry, none) =>
        let wp := entry.map (fun en =>
          ⟨if en.unit ≠ unit then ConvertWeight en.value en.unit unit else en.value, unit⟩)
        .ok (pts ++ [⟨day, water, wp⟩])

/-- `app.ChartsService.GetDaily` against the abstract fallible ports. -/
def SvcGetDaily (r : ChartsRepoCalls) (todayIdx days : Int) (unit : String) :
    Except String (List DayPoint) :=
  if unit ≠ "kg" ∧ unit ≠ "lb" then .error "unit must be kg or lb"
  else
    let d2 := if days > 366 then 366 else days
    (List.range d2.toNat).foldl
      (fun acc (k : Nat) => svcDayStep r unit (todayIdx - (d2 - 1 - (k : Int))) acc) (.ok [])

/-! ## Generic fold lemmas -/

/-- A left fold whose step ignores elements rejected by `p` factors through
`filter p`. -/
theorem foldl_congr_filter {α β : Type*} (f : β → α → β) (p : α → Bool)
    (hf : ∀ b x, p x = false → f b x = b) :
    ∀ (l : List α) (b : β), l.foldl f b = (l.filter p).foldl f b
  | [], _ => rfl
  | x :: l, b => by
    by_cases hx : p x
    · rw [List.filter_cons_of_pos hx, List.foldl_cons, List.foldl_cons,
        foldl_congr_filter f p hf l (f b x)]
    · have hx' : p x = false := by simpa using hx
      rw [List.filter_cons_of_neg (by simpa using hx), List.foldl_cons, hf b x hx',
        foldl_congr_filter f p hf l b]

/-- A guarded accumulating fold computes the sum over the filtered list. -/
theorem foldl_if_add_sum {α : Type*} (p : α → Prop) [DecidablePred p] (g : α → ℚ) :
    ∀ (l : List α) (init : ℚ),
      l.foldl (fun t w => if p w then t + g w else t) init
        = init + ((l.filter (fun w => p w)).map g).sum
  | [], init => by simp
  | x :: l, init => by
    by_cases hx : p x
    · rw [List.foldl_cons, if_pos hx, List.filter_cons_of_pos (by simpa using hx),
        List.map_cons, List.sum_cons, foldl_if_add_sum p g l (init + g x)]
      ring
    · rw [List.foldl_cons, if_neg hx, List.filter_cons_of_neg (by simpa using hx),
        foldl_if_add_sum p g l init]

/-- Spec §8 check: `convert(100, "kg", "lb") ≈ 220.46226218` (exact in ℚ). -/
theorem convert_100kg_check : ConvertWeight 100 "kg" "lb" = 220.46226218 := by
  simp only [ConvertWeight, String.reduceEq, reduceIte]
  norm_num [kgToLb]

/-- Spec §8 check: two same-day weight events, the later timestamp wins. -/
theorem later_timestamp_wins_check :
    LatestWeightForLocalDay
      ⟨[⟨1, 1, none, 80, "kg", 25200⟩, ⟨2, 1, none, 81, "kg", 68400⟩], [], 2, 0⟩ 1 0 0
      = some ⟨2, 1, some 0, 81, "kg", 68400⟩ := by
  decide

/-! ## Properties of the latest-weight scan -/

/-- One step of the latest-weight scan either keeps the accumulator or
selects the current event, and only selects events inside the day. -/
theorem latestStep_cases (u tz d : Int) (acc : Option WeightEntry) (w : WeightEntry) :
    latestStep u tz d acc w = acc ∨
    (latestStep u tz d acc w = some w ∧ weightInDay u tz d w) := by
  unfold latestStep weightInDay
  by_cases h1 : w.userId ≠ u
  · simp [h1]
  · push_neg at h1
    by_cases h2 : dayStartUTC tz d ≤ w.createdAt ∧ w.createdAt < dayStartUTC tz d + 86400
    · cases acc with
      | none => simp [h1, h2]
      | some l =>
        by_cases hlt : l.createdAt < w.createdAt <;> simp [h1, h2, hlt]
    · simp [h1, h2]

/-- The scan never loses a held candidate: the accumulator's `createdAt` can
only grow. -/
theorem latestStep_mono (u tz d : Int) (acc : Option WeightEntry) (w : WeightEntry)
    (a : WeightEntry) (h : acc = some a) :
    ∃ b, latestStep u tz d acc w = some b ∧ a.createdAt ≤ b.createdAt := by
  subst h
  unfold latestStep
  by_cases h1 : w.userId ≠ u
  · exact ⟨a, by simp [h1], le_refl _⟩
  · by_cases h2 : dayStartUTC tz d ≤ w.createdAt ∧ w.createdAt < dayStartUTC tz d + 86400
    · by_cases hlt : a.createdAt < w.createdAt
      · exact ⟨w, by simp [h1, h2, hlt], le_of_lt hlt⟩
      · exact ⟨a, by simp [h1, h2, hlt], le_refl _⟩
    · exact ⟨a, by simp [h1, h2], le_refl _⟩

/-- After processing an in-day event of the user, the accumulator holds an
event at least as recent as it. -/
theorem latestStep_dominates (u tz d : Int) (acc : Option WeightEntry) (w : WeightEntry)
    (h : weightInDay u tz d w) :
    ∃ b, latestStep u tz d acc w = some b ∧ w.createdAt ≤ b.createdAt := by
  obtain ⟨hu, hr⟩ := h
  unfold latestStep
  cases acc with
  | none => exact ⟨w, by simp [hu, hr], le_refl _⟩
  | some l =>
    by_cases hlt : l.createdAt < w.createdAt
    · exact ⟨w, by simp [hu, hr, hlt], le_refl _⟩
    · exact ⟨l, by simp [hu, hr, hlt], le_of_not_lt hlt⟩

/-- The step yields `none` exactly when it had nothing and the current event
is not the user's in-day event. -/
theorem latestStep_eq_none (u tz d : Int) (acc : Option WeightEntry) (w : WeightEntry) :
    latestStep u tz d acc w = none ↔ acc = none ∧ ¬ weightInDay u tz d w := by
  unfold latestStep weightInDay
  by_cases h1 : w.userId ≠ u
  · simp [h1]
  · push_neg at h1
    by_cases h2 : dayStartUTC tz d ≤ w.createdAt ∧ w.createdAt < dayStartUTC tz d + 86400
    · cases acc with
      | none => simp [h1, h2]
      | some l =>
        by_cases hlt : l.createdAt < w.createdAt <;> simp [h1, h2, hlt]
    · simp [h1, h2]

/-- The whole scan yields `none` exactly when it started empty and no event in
the list is the user's in-day event. -/
theorem latestFold_none (u tz d : Int) :
    ∀ (l : List WeightEntry) (acc : Option WeightEntry),
      l.foldl (latestStep u tz d) acc = none ↔
        acc = none ∧ ∀ w ∈ l, ¬ weightInDay u tz d w
  | [], acc => by simp
  | w :: l, acc => by
    rw [List.foldl_cons, latestFold_none u tz d l (latestStep u tz d acc w),
      latestStep_eq_none]
    simp only [List.mem_cons]
    constructor
    · rintro ⟨⟨ha, hw⟩, hl⟩
      exact ⟨ha, fun x hx => hx.elim (fun h => h ▸ hw) (hl x)⟩
    · rintro ⟨ha, hall⟩
      exact ⟨⟨ha, hall w (Or.inl rfl)⟩, fun x hx => hall x (Or.inr hx)⟩

/-- If the scan returns an event, that event came from the accumulator or the
list, and its `createdAt` dominates every in-day event of the user seen. -/
theorem latestFold_some (u tz d : Int) :
    ∀ (l : List WeightEntry) (acc : Option WeightEntry) (e : WeightEntry),
      l.foldl (latestStep u tz d) acc = some e →
        (acc = some e ∨ (e ∈ l ∧ weightInDay u tz d e)) ∧
        (∀ w ∈ l, weightInDay u tz d w → w.createdAt ≤ e.createdAt) ∧
        (∀ a, acc = some a → a.createdAt ≤ e.createdAt)
  | [], acc, e => fun h => by
    simp only [List.foldl_nil] at h
    refine ⟨Or.inl h, by simp, fun a ha => ?_⟩
    rw [h] at ha
    simp only [Option.some.injEq] at ha
    subst ha
    exact le_refl _
  | w :: l, acc, e => fun h => by
    rw [List.foldl_cons] at h
    obtain ⟨h1, h2, h3⟩ := latestFold_some u tz d l (latestStep u tz d acc w) e h
    refine ⟨?_, ?_, ?_⟩
    · rcases latestStep_cases u tz d acc w with hc | ⟨hc, hw⟩
      · rw [hc] at h1
        exact h1.imp id (fun hm => ⟨List.mem_cons_of_mem _ hm.1, hm.2⟩)
      · rcases h1 with h1 | h1
        · rw [hc] at h1
          injection h1 with h1
          subst h1
          exact Or.inr ⟨List.mem_cons_self _ _, hw⟩
        · exact Or.inr ⟨List.mem_cons_of_mem _ h1.1, h1.2⟩
    · intro x hx hxd
      rcases List.mem_cons.mp hx with rfl | hx'
      · obtain ⟨b, hb, hwb⟩ := latestStep_dominates u tz d acc x hxd
        exact le_trans hwb (h3 b hb)
      · exact h2 x hx' hxd
    · intro a ha
      obtain ⟨b, hb, hab⟩ := latestStep_mono u tz d acc w a ha
      exact le_trans hab (h3 b hb)

/-! ## C2: latest weight for a local day -/

/-- `LatestWeightForLocalDay` is empty exactly when the user has no weight
event in the day's interval. -/
theorem latest_none_iff (db : DB) (u d tz : Int) :
    LatestWeightForLocalDay db u d tz = none ↔
      ∀ w ∈ db.weights, ¬ weightInDay u tz d w := by
  unfold LatestWeightForLocalDay
  rw [Option.map_eq_none', latestFold_none]
  simp

/-- A returned latest entry is a relabelled copy of a maximal in-day event of
the user. -/
theorem latest_some_max (db : DB) (u d tz : Int) (e : WeightEntry)
    (he : LatestWeightForLocalDay db u d tz = some e) :
    e.day = some d ∧
    ∃ e0 ∈ db.weights, weightInDay u tz d e0 ∧ e = { e0 with day := some d } ∧
      ∀ w ∈ db.weights, weightInDay u tz d w → w.createdAt ≤ e0.createdAt := by
  unfold LatestWeightForLocalDay at he
  obtain ⟨l0, hfold, heq⟩ := Option.map_eq_some'.mp he
  obtain ⟨h1, h2, _⟩ := latestFold_some u tz d db.weights none l0 hfold
  rcases h1 with h1 | ⟨hmem, hday⟩
  · exact absurd h1 (by simp)
  · subst heq
    exact ⟨rfl, l0, hmem, hday, rfl, h2⟩

/-- C2: for every parsed local day (day index `d`), `LatestWeightForLocalDay`
returns `none` exactly when the user has no weight event with `createdAt` in
the half-open interval `[dayStartUTC, dayStartUTC + 24h)`, and otherwise
returns a copy of an event of the user inside that interval whose `createdAt`
is maximal among them, with the `Day` field set to the queried day as
supplied. -/
theorem latestWeightForLocalDay_spec (db : DB) (u d tz : Int) :
    (LatestWeightForLocalDay db u d tz = none ↔
      ∀ w ∈ db.weights, ¬ weightInDay u tz d w) ∧
    (∀ e, LatestWeightForLocalDay db u d tz = some e →
      e.day = some d ∧
      ∃ e0 ∈ db.weights, weightInDay u tz d e0 ∧ e = { e0 with day := some d } ∧
        ∀ w ∈ db.weights, weightInDay u tz d w → w.createdAt ≤ e0.createdAt) :=
  ⟨latest_none_iff db u d tz, latest_some_max db u d tz⟩

/-- Witness for C2 at a one-event log: the event is returned with the queried
day label. -/
theorem latestWeightForLocalDay_spec_witness :
    LatestWeightForLocalDay ⟨[⟨1, 1, none, 80, "kg", 30⟩], [], 1, 0⟩ 1 0 0
        = some ⟨1, 1, some 0, 80, "kg", 30⟩ ∧
    (some (0 : Int) : Option Int) = some 0 := by
  have h := (latestWeightForLocalDay_spec ⟨[⟨1, 1, none, 80, "kg", 30⟩], [], 1, 0⟩ 1 0 0).2
    ⟨1, 1, some 0, 80, "kg", 30⟩ (by decide)
  exact ⟨by decide, h.1⟩

/-! ## C3: water total for a local day -/

/-- `WaterTotalForLocalDay` is the sum over the user's in-day events. -/
theorem waterTotal_eq_sum (db : DB) (u d tz : Int) :
    WaterTotalForLocalDay db u d tz
      = ((db.waterEvents.filter (fun w => waterInDay u tz d w)).map
          (fun w => w.deltaLiters)).sum := by
  have hstep : ∀ (t : ℚ) (w : WaterEvent),
      (if w.userId ≠ u then t
       else if dayStartUTC tz d ≤ w.createdAt ∧ w.createdAt < dayStartUTC tz d + 86400 then
         t + w.deltaLiters
       else t)
      = if waterInDay u tz d w then t + w.deltaLiters else t := by
    intro t w
    unfold waterInDay
    by_cases h1 : w.userId = u <;>
      by_cases h2 : dayStartUTC tz d ≤ w.createdAt ∧ w.createdAt < dayStartUTC tz d + 86400 <;>
        simp [h1, h2]
  unfold WaterTotalForLocalDay
  rw [List.foldl_ext _ (fun t w => if waterInDay u tz d w then t + w.deltaLiters else t) 0
      (fun t w _ => hstep t w),
    foldl_if_add_sum (waterInDay u tz d) (fun w => w.deltaLiters) db.waterEvents 0]
  simp

/-- `WaterTotalForLocalDay` is `0` when the user has no in-day event. -/
theorem waterTotal_empty (db : DB) (u d tz : Int)
    (hnone : ∀ w ∈ db.waterEvents, ¬ waterInDay u tz d w) :
    WaterTotalForLocalDay db u d tz = 0 := by
  rw [waterTotal_eq_sum, List.filter_eq_nil_iff.mpr ?_, List.map_nil, List.sum_nil]
  intro w hw
  simp [hnone w hw]

/-- C3: for every parsed local day, `WaterTotalForLocalDay` is the sum of
`deltaLiters` over exactly the user's water events with `createdAt` in the
half-open interval, and it is `0` (a value, not an error) when the user has no
water event in the interval. -/
theorem waterTotalForLocalDay_spec (db : DB) (u d tz : Int) :
    WaterTotalForLocalDay db u d tz
        = ((db.waterEvents.filter (fun w => waterInDay u tz d w)).map
            (fun w => w.deltaLiters)).sum ∧
    ((∀ w ∈ db.waterEvents, ¬ waterInDay u tz d w) →
      WaterTotalForLocalDay db u d tz = 0) :=
  ⟨waterTotal_eq_sum db u d tz, waterTotal_empty db u d tz⟩

/-- Witness for C3: a user with no events on the day gets total `0`. -/
theorem waterTotalForLocalDay_spec_witness :
    WaterTotalForLocalDay ⟨[], [⟨1, 1, 1/2, 10⟩], 0, 1⟩ 2 0 0 = 0 := by
  apply (waterTotalForLocalDay_spec ⟨[], [⟨1, 1, 1/2, 10⟩], 0, 1⟩ 2 0 0).2
  intro w hw
  simp only [List.mem_singleton] at hw
  subst hw
  decide

/-! ## Properties of the delete-latest index scan -/

/-- The index scan finds nothing exactly when the user has no weight event. -/
theorem findLatestWeightIdx_none (u : Int) :
    ∀ l : List WeightEntry, findLatestWeightIdx u l = none ↔ ∀ w ∈ l, w.userId ≠ u
  | [] => by simp [findLatestWeightIdx]
  | w :: ws => by
    have ih := findLatestWeightIdx_none u ws
    unfold findLatestWeightIdx
    by_cases h : w.userId = u
    · cases hr : findLatestWeightIdx u ws with
      | none => simp [h, hr, List.forall_mem_cons]
      | some q =>
        by_cases hlt : w.createdAt < q.2.createdAt <;>
          simp [h, hr, hlt, List.forall_mem_cons]
    · simp [h, List.forall_mem_cons, Option.map_eq_none', ih]

/-- If the index scan returns `(i, w)` then `w` sits at index `i`, belongs to
the user, and its `createdAt` dominates all of the user's events. -/
theorem findLatestWeightIdx_some (u : Int) :
    ∀ (l : List WeightEntry) (i : Nat) (w : WeightEntry),
      findLatestWeightIdx u l = some (i, w) →
      l[i]? = some w ∧ w.userId = u ∧
        ∀ x ∈ l, x.userId = u → x.createdAt ≤ w.createdAt
  | [], i, w => by simp [findLatestWeightIdx]
  | y :: ys, i, w => by
    intro h
    unfold findLatestWeightIdx at h
    by_cases hy : y.userId = u
    · rw [if_pos hy] at h
      cases hr : findLatestWeightIdx u ys with
      | none =>
        rw [hr] at h
        simp only [Option.map_none'] at h
        simp only [Option.some.injEq, Prod.mk.injEq] at h
        obtain ⟨rfl, rfl⟩ := h
        refine ⟨by simp, hy, ?_⟩
        intro x hx hxu
        rcases List.mem_cons.mp hx with rfl | hx'
        · exact le_refl _
        · exact absurd hxu ((findLatestWeightIdx_none u ys).mp hr x hx')
      | some q =>
        obtain ⟨j, v⟩ := q
        rw [hr] at h
        simp only [Option.map_some'] at h
        obtain ⟨hq1, hq2, hq3⟩ := findLatestWeightIdx_some u ys j v hr
        by_cases hlt : y.createdAt < v.createdAt
        · rw [if_pos hlt] at h
          simp only [Option.some.injEq, Prod.mk.injEq] at h
          obtain ⟨rfl, rfl⟩ := h
          refine ⟨by simpa using hq1, hq2, ?_⟩
          intro x hx hxu
          rcases List.mem_cons.mp hx with rfl | hx'
          · exact le_of_lt hlt
          · exact hq3 x hx' hxu
        · rw [if_neg hlt] at h
          simp only [Option.some.injEq, Prod.mk.injEq] at h
          obtain ⟨rfl, rfl⟩ := h
          refine ⟨by simp, hy, ?_⟩
          intro x hx hxu
          rcases List.mem_cons.mp hx with rfl | hx'
          · exact le_refl _
          · exact le_trans (hq3 x hx' hxu) (le_of_not_lt hlt)
    · rw [if_neg hy] at h
      obtain ⟨⟨j, v⟩, hjv, heq⟩ := Option.map_eq_some'.mp h
      simp only [Prod.mk.injEq] at heq
      obtain ⟨rfl, rfl⟩ := heq
      obtain ⟨hq1, hq2, hq3⟩ := findLatestWeightIdx_some u ys j v hjv
      refine ⟨by simpa using hq1, hq2, ?_⟩
      intro x hx hxu
      rcases List.mem_cons.mp hx with rfl | hx'
      · exact absurd hxu hy
      · exact hq3 x hx' hxu

/-! ## C4: weight undoLast deletes the global most recent event -/

/-- C4: for a user with at least one weight event, `WeightUndoLast` removes
exactly one event of that user — one whose `createdAt` is maximal across all
of the user's events, on any day — and returns `deleted = true` together with
the freshly recomputed latest entry for today on the post-deletion log; all
other events (including other users') are untouched (`eraseIdx` of one
index). -/
theorem weightUndoLast_deletes_global_latest (db : DB) (u : Int) (now tz : Int)
    (h : ∃ w ∈ db.weights, w.userId = u) :
    ∃ i w, db.weights[i]? = some w ∧ w.userId = u ∧
      (∀ x ∈ db.weights, x.userId = u → x.createdAt ≤ w.createdAt) ∧
      WeightUndoLast db u now tz =
        ((true,
          LatestWeightForLocalDay { db with weights := db.weights.eraseIdx i } u
            (formatLocalDay tz now) tz,
          formatLocalDay tz now),
         { db with weights := db.weights.eraseIdx i }) := by
  obtain ⟨w0, hw0, hu0⟩ := h
  cases hfind : findLatestWeightIdx u db.weights with
  | none => exact absurd hu0 ((findLatestWeightIdx_none u db.weights).mp hfind w0 hw0)
  | some q =>
    obtain ⟨i, w⟩ := q
    obtain ⟨h1, h2, h3⟩ := findLatestWeightIdx_some u db.weights i w hfind
    refine ⟨i, w, h1, h2, h3, ?_⟩
    have hne : db.weights.isEmpty = false := by
      cases hw : db.weights with
      | nil => rw [hw] at hw0; simp at hw0
      | cons a l => simp [hw]
    simp [WeightUndoLast, DeleteLatestWeightEvent, hne, hfind]

/-- Witness for C4 on a two-event log: the later event (index 1) is deleted. -/
theorem weightUndoLast_witness :
    ∃ i w,
      (⟨[⟨1, 1, none, 70, "kg", 10⟩, ⟨2, 1, none, 71, "kg", 50⟩], [], 2, 0⟩ : DB).weights[i]?
          = some w ∧
      w.userId = 1 ∧
      (∀ x ∈ (⟨[⟨1, 1, none, 70, "kg", 10⟩, ⟨2, 1, none, 71, "kg", 50⟩], [], 2, 0⟩ : DB).weights,
        x.userId = 1 → x.createdAt ≤ w.createdAt) ∧
      WeightUndoLast ⟨[⟨1, 1, none, 70, "kg", 10⟩, ⟨2, 1, none, 71, "kg", 50⟩], [], 2, 0⟩ 1 0 0 =
        ((true,
          LatestWeightForLocalDay
            { (⟨[⟨1, 1, none, 70, "kg", 10⟩, ⟨2, 1, none, 71, "kg", 50⟩], [], 2, 0⟩ : DB) with
              weights := (⟨[⟨1, 1, none, 70, "kg", 10⟩, ⟨2, 1, none, 71, "kg", 50⟩], [], 2, 0⟩ :
                DB).weights.eraseIdx i } 1 (formatLocalDay 0 0) 0,
          formatLocalDay 0 0),
         { (⟨[⟨1, 1, none, 70, "kg", 10⟩, ⟨2, 1, none, 71, "kg", 50⟩], [], 2, 0⟩ : DB) with
           weights := (⟨[⟨1, 1, none, 70, "kg", 10⟩, ⟨2, 1, none, 71, "kg", 50⟩], [], 2, 0⟩ :
             DB).weights.eraseIdx i }) :=
  weightUndoLast_deletes_global_latest
    ⟨[⟨1, 1, none, 70, "kg", 10⟩, ⟨2, 1, none, 71, "kg", 50⟩], [], 2, 0⟩ 1 0 0
    ⟨⟨1, 1, none, 70, "kg", 10⟩, by decide, by decide⟩

/-! ## C9: listRecent truncation bounds -/

/-- The Go truncation `if len > limit { s = s[:limit] }` on a sorted list: for
a nonnegative limit it succeeds with at most `limit` elements, still sorted. -/
theorem truncSorted {α : Type*} (r : α → α → Prop) (sorted : List α)
    (hs : sorted.Pairwise r) (limit : Int) (hpos : 0 ≤ limit) :
    ∃ l, (if (sorted.length : Int) > limit then
            if 0 ≤ limit then some (sorted.take limit.toNat) else none
          else some sorted) = some l ∧ (l.length : Int) ≤ limit ∧ l.Pairwise r := by
  by_cases hgt : (sorted.length : Int) > limit
  · refine ⟨sorted.take limit.toNat, by rw [if_pos hgt, if_pos hpos], ?_,
      hs.sublist (List.take_sublist _ _)⟩
    rw [List.length_take]
    have h1 : min limit.toNat sorted.length ≤ limit.toNat := Nat.min_le_left _ _
    omega
  · exact ⟨sorted, by rw [if_neg hgt], by omega, hs⟩

/-- C9: for every `limit ≥ 0`, `ListRecentWeightEvents` and
`ListRecentWaterEvents` succeed with at most `limit` entries sorted descending
by `createdAt`; for a negative limit and at least one matching event the
truncation index is out of bounds (modelled `none`, a Go slice-bounds
panic). -/
theorem listRecent_limit_bounds (db : DB) (u limit tz : Int) :
    (0 ≤ limit →
      (∃ l, ListRecentWeightEvents db u limit tz = some l ∧
        (l.length : Int) ≤ limit ∧ l.Pairwise weightDesc) ∧
      (∃ l, ListRecentWaterEvents db u limit = some l ∧
        (l.length : Int) ≤ limit ∧ l.Pairwise waterDesc)) ∧
    (limit < 0 → (∃ w ∈ db.weights, w.userId = u) →
      ListRecentWeightEvents db u limit tz = none) ∧
    (limit < 0 → (∃ w ∈ db.waterEvents, w.userId = u) →
      ListRecentWaterEvents db u limit = none) := by
  refine ⟨fun hpos => ⟨?_, ?_⟩, fun hneg hex => ?_, fun hneg hex => ?_⟩
  · obtain ⟨l, hl, hlen, hpw⟩ := truncSorted weightDesc
      ((db.weights.filter (fun w => w.userId = u)).insertionSort weightDesc)
      (List.sorted_insertionSort weightDesc _) limit hpos
    refine ⟨l.map (fun w => { w with day := some (formatLocalDay tz w.createdAt) }),
      ?_, ?_, ?_⟩
    · simp only [ListRecentWeightEvents]
      rw [hl]
      rfl
    · simpa using hlen
    · exact List.pairwise_map.mpr (hpw.imp (fun h => h))
  · obtain ⟨l, hl, hlen, hpw⟩ := truncSorted waterDesc
      ((db.waterEvents.filter (fun w => w.userId = u)).insertionSort waterDesc)
      (List.sorted_insertionSort waterDesc _) limit hpos
    exact ⟨l, by simp only [ListRecentWaterEvents]; rw [hl], hlen, hpw⟩
  · obtain ⟨w0, hw0, hu0⟩ := hex
    have hmem : w0 ∈ db.weights.filter (fun w => w.userId = u) :=
      List.mem_filter.mpr ⟨hw0, by simp [hu0]⟩
    have hlen : 0 < ((db.weights.filter (fun w => w.userId = u)).insertionSort
        weightDesc).length := by
      rw [List.length_insertionSort]
      exact List.length_pos.mpr (fun h => by rw [h] at hmem; simp at hmem)
    simp only [ListRecentWeightEvents]
    rw [if_pos (by omega), if_neg (by omega)]
    rfl
  · obtain ⟨w0, hw0, hu0⟩ := hex
    have hmem : w0 ∈ db.waterEvents.filter (fun w => w.userId = u) :=
      List.mem_filter.mpr ⟨hw0, by simp [hu0]⟩
    have hlen : 0 < ((db.waterEvents.filter (fun w => w.userId = u)).insertionSort
        waterDesc).length := by
      rw [List.length_insertionSort]
      exact List.length_pos.mpr (fun h => by rw [h] at hmem; simp at hmem)
    simp only [ListRecentWaterEvents]
    rw [if_pos (by omega), if_neg (by omega)]

/-- Witness for C9: limit `2` succeeds on a two-event log; limit `-1` with a
matching event is the out-of-bounds truncation. -/
theorem listRecent_limit_bounds_witness :
    ((∃ l, ListRecentWeightEvents ⟨[⟨1, 1, none, 70, "kg", 10⟩], [⟨1, 1, 1, 20⟩], 1, 1⟩
        1 2 0 = some l ∧ (l.length : Int) ≤ 2 ∧ l.Pairwise weightDesc) ∧
     (∃ l, ListRecentWaterEvents ⟨[⟨1, 1, none, 70, "kg", 10⟩], [⟨1, 1, 1, 20⟩], 1, 1⟩
        1 2 = some l ∧ (l.length : Int) ≤ 2 ∧ l.Pairwise waterDesc)) ∧
    ListRecentWeightEvents ⟨[⟨1, 1, none, 70, "kg", 10⟩], [⟨1, 1, 1, 20⟩], 1, 1⟩ 1 (-1) 0
      = none :=
  ⟨(listRecent_limit_bounds ⟨[⟨1, 1, none, 70, "kg", 10⟩], [⟨1, 1, 1, 20⟩], 1, 1⟩ 1 2 0).1
      (by norm_num),
   (listRecent_limit_bounds ⟨[⟨1, 1, none, 70, "kg", 10⟩], [⟨1, 1, 1, 20⟩], 1, 1⟩ 1 (-1) 0).2.1
      (by norm_num) ⟨⟨1, 1, none, 70, "kg", 10⟩, by decide, by decide⟩⟩

/-! ## C5: water undoLast -/

/-- `ListRecentWaterEvents` at limit 1 for a user with at least one event:
exactly the user's most recent event, in a one-element list. -/
theorem listRecentWater_one (db : DB) (u : Int)
    (h : ∃ w ∈ db.waterEvents, w.userId = u) :
    ∃ e, ListRecentWaterEvents db u 1 = some [e] ∧ e ∈ db.waterEvents ∧ e.userId = u ∧
      ∀ x ∈ db.waterEvents, x.userId = u → x.createdAt ≤ e.createdAt := by
  obtain ⟨w0, hw0, hu0⟩ := h
  have hmem : w0 ∈ db.waterEvents.filter (fun w => w.userId = u) :=
    List.mem_filter.mpr ⟨hw0, by simp [hu0]⟩
  have hsort := List.sorted_insertionSort waterDesc
    (db.waterEvents.filter (fun w => w.userId = u))
  have hperm := List.perm_insertionSort waterDesc
    (db.waterEvents.filter (fun w => w.userId = u))
  cases hsrte : (db.waterEvents.filter (fun w => w.userId = u)).insertionSort waterDesc with
  | nil =>
    rw [hsrte] at hperm
    exact absurd (hperm.symm.mem_iff.mp hmem) (by simp)
  | cons e rest =>
    rw [hsrte] at hsort hperm
    have hes : e ∈ db.waterEvents.filter (fun w => w.userId = u) :=
      hperm.mem_iff.mp (List.mem_cons_self _ _)
    have hef := List.mem_filter.mp hes
    refine ⟨e, ?_, hef.1, by simpa using hef.2, ?_⟩
    · simp only [ListRecentWaterEvents]
      rw [hsrte]
      by_cases hlen : (((e :: rest).length : Nat) : Int) > 1
      · rw [if_pos hlen, if_pos (by norm_num)]
        simp
      · rw [if_neg hlen]
        have hrest : rest = [] := by
          cases rest with
          | nil => rfl
          | cons a t => exfalso; simp at hlen
        rw [hrest]
    · intro x hx hxu
      have hxf : x ∈ db.waterEvents.filter (fun w => w.userId = u) :=
        List.mem_filter.mpr ⟨hx, by simp [hxu]⟩
      rcases List.mem_cons.mp (hperm.mem_iff.mpr hxf) with rfl | hxr
      · exact le_refl _
      · exact (List.pairwise_cons.mp hsort).1 x hxr

/-- `removeFirstWater` (the `DeleteWaterEvent` loop) removes exactly the
occurrence of `e` when event ids are unique. -/
theorem removeFirstWater_eraseIdx (u : Int) :
    ∀ (l : List WaterEvent) (e : WaterEvent),
      (l.map (fun w => w.id)).Nodup → e ∈ l → e.userId = u →
      ∃ i, l[i]? = some e ∧ removeFirstWater u e.id l = l.eraseIdx i
  | [], e => by simp
  | w :: ws, e => fun hnd hmem hu => by
    rw [List.map_cons, List.nodup_cons] at hnd
    obtain ⟨hid, hnd'⟩ := hnd
    by_cases hw : w.id = e.id ∧ w.userId = u
    · have hew : e = w := by
        rcases List.mem_cons.mp hmem with rfl | hmem'
        · rfl
        · have hin : e.id ∈ ws.map (fun x => x.id) := List.mem_map_of_mem _ hmem'
          rw [← hw.1] at hin
          exact absurd hin hid
      subst hew
      refine ⟨0, by simp, ?_⟩
      unfold removeFirstWater
      rw [if_pos hw]
      rfl
    · have hew : e ≠ w := fun he => hw (he ▸ ⟨rfl, hu⟩)
      have hmem' : e ∈ ws := by
        rcases List.mem_cons.mp hmem with h | h
        · exact absurd h hew
        · exact h
      obtain ⟨i, hi, hrm⟩ := removeFirstWater_eraseIdx u ws e hnd' hmem' hu
      refine ⟨i + 1, by simpa using hi, ?_⟩
      unfold removeFirstWater
      rw [if_neg hw, hrm]
      rfl

/-- C5: on a log with unique event ids (the id-counter invariant),
`WaterUndoLast` returns `(false, 0)` and leaves the log unchanged when the
user has no water event, and otherwise deletes — by id — exactly the event
returned by `ListRecentWaterEvents(u, 1)`, the user's most recent water
event, returning `(true, its id)`. -/
theorem waterUndoLast_spec (db : DB) (u : Int)
    (hnodup : (db.waterEvents.map (fun w => w.id)).Nodup) :
    ((∀ w ∈ db.waterEvents, w.userId ≠ u) → WaterUndoLast db u = some ((false, 0), db)) ∧
    ((∃ w ∈ db.waterEvents, w.userId = u) →
      ∃ e i, db.waterEvents[i]? = some e ∧ e.userId = u ∧
        (∀ x ∈ db.waterEvents, x.userId = u → x.createdAt ≤ e.createdAt) ∧
        ListRecentWaterEvents db u 1 = some [e] ∧
        WaterUndoLast db u =
          some ((true, e.id), { db with waterEvents := db.waterEvents.eraseIdx i })) := by
  constructor
  · intro hempty
    have hfilter : db.waterEvents.filter (fun w => w.userId = u) = [] :=
      List.filter_eq_nil_iff.mpr (fun w hw => by simp [hempty w hw])
    simp only [WaterUndoLast, ListRecentWaterEvents, hfilter]
    rfl
  · intro hex
    obtain ⟨e, hlst, hmem, hu, hmax⟩ := listRecentWater_one db u hex
    obtain ⟨i, hi, hrm⟩ := removeFirstWater_eraseIdx u db.waterEvents e hnodup hmem hu
    refine ⟨e, i, hi, hu, hmax, hlst, ?_⟩
    simp only [WaterUndoLast, hlst, DeleteWaterEvent, hrm]

/-- Witness for C5 on a one-event log of user 1. -/
theorem waterUndoLast_spec_witness :
    ∃ e i,
      (⟨[], [⟨5, 1, 1, 100⟩], 0, 5⟩ : DB).waterEvents[i]? = some e ∧ e.userId = 1 ∧
      (∀ x ∈ (⟨[], [⟨5, 1, 1, 100⟩], 0, 5⟩ : DB).waterEvents,
        x.userId = 1 → x.createdAt ≤ e.createdAt) ∧
      ListRecentWaterEvents ⟨[], [⟨5, 1, 1, 100⟩], 0, 5⟩ 1 1 = some [e] ∧
      WaterUndoLast ⟨[], [⟨5, 1, 1, 100⟩], 0, 5⟩ 1 =
        some ((true, e.id),
          { (⟨[], [⟨5, 1, 1, 100⟩], 0, 5⟩ : DB) with
            waterEvents := (⟨[], [⟨5, 1, 1, 100⟩], 0, 5⟩ : DB).waterEvents.eraseIdx i }) :=
  (waterUndoLast_spec ⟨[], [⟨5, 1, 1, 100⟩], 0, 5⟩ 1 (by decide)).2
    ⟨⟨5, 1, 1, 100⟩, by decide, by decide⟩

/-! ## C1: dense daily series -/

/-- C1: for a valid unit and `days ≥ 1`, `GetDaily` succeeds (no repository
call can fail here) with exactly `min days 366` points, ordered oldest to
newest over consecutive local days — point `k` is day
`today - (min days 366 - 1) + k`, so each day appears exactly once and the
last point is today; a day with no weight event has `weight = none` and a day
with no water events has `waterLiters = 0`.  Instantiating `days := 500`
gives exactly 366 points. -/
theorem getDaily_dense_series (db : DB) (u todayIdx days : Int) (unit : String) (tz : Int)
    (hunit : unit = "kg" ∨ unit = "lb") (hdays : 1 ≤ days) :
    ∃ pts, GetDaily db u todayIdx days unit tz = Except.ok pts ∧
      (pts.length : Int) = min days 366 ∧
      (∀ (k : Nat) (hk : k < pts.length),
        (pts.get ⟨k, hk⟩).day = todayIdx - (min days 366 - 1) + k) ∧
      (∃ plast, pts.getLast? = some plast ∧ plast.day = todayIdx) ∧
      (∀ p ∈ pts, (p.weight = none ↔ ∀ w ∈ db.weights, ¬ weightInDay u tz p.day w)) ∧
      (∀ p ∈ pts, (∀ w ∈ db.waterEvents, ¬ waterInDay u tz p.day w) →
        p.waterLiters = 0) := by
  have hcond : ¬(unit ≠ "kg" ∧ unit ≠ "lb") := by
    rcases hunit with h | h <;> simp [h]
  have hmin : (if days > 366 then (366 : Int) else days) = min days 366 := by
    split <;> omega
  have htn : ((min days 366).toNat : Int) = min days 366 :=
    Int.toNat_of_nonneg (by omega)
  have hget : ∀ (k : Nat) (hk : k < ((List.range (min days 366).toNat).map
        (fun (k : Nat) => mkDayPoint db u (todayIdx - (min days 366 - 1 - (k : Int))) unit tz)).length),
      ((List.range (min days 366).toNat).map
        (fun (k : Nat) => mkDayPoint db u (todayIdx - (min days 366 - 1 - (k : Int))) unit tz)).get
          ⟨k, hk⟩
        = mkDayPoint db u (todayIdx - (min days 366 - 1 - (k : Int))) unit tz := by
    intro k hk
    simp [List.get_eq_getElem, List.getElem_map, List.getElem_range]
  refine ⟨(List.range (min days 366).toNat).map
      (fun (k : Nat) => mkDayPoint db u (todayIdx - (min days 366 - 1 - (k : Int))) unit tz),
    ?_, ?_, ?_, ?_, ?_, ?_⟩
  · simp only [GetDaily, hmin, hcond, if_false]
  · simpa using htn
  · intro k hk
    rw [hget k hk]
    show todayIdx - (min days 366 - 1 - (k : Int)) = _
    omega
  · have hlen : ((List.range (min days 366).toNat).map
        (fun (k : Nat) => mkDayPoint db u (todayIdx - (min days 366 - 1 - (k : Int))) unit tz)).length
        = (min days 366).toNat := by simp
    have hpos : 0 < (min days 366).toNat := by omega
    refine ⟨mkDayPoint db u
        (todayIdx - (min days 366 - 1 - (((min days 366).toNat - 1 : Nat) : Int))) unit tz,
      ?_, ?_⟩
    · rw [List.getLast?_eq_getElem? _,
        List.getElem?_eq_getElem (Nat.sub_lt (by omega) Nat.one_pos)]
      simp only [List.length_map, List.length_range, List.getElem_map, List.getElem_range]
    · show todayIdx - (min days 366 - 1 - (((min days 366).toNat - 1 : Nat) : Int)) = todayIdx
      omega
  · intro p hp
    obtain ⟨k, _, rfl⟩ := List.mem_map.mp hp
    simpa [mkDayPoint, Option.map_eq_none'] using
      latest_none_iff db u (todayIdx - (min days 366 - 1 - (k : Int))) tz
  · intro p hp h0
    obtain ⟨k, _, rfl⟩ := List.mem_map.mp hp
    exact waterTotal_empty db u (todayIdx - (min days 366 - 1 - (k : Int))) tz h0

/-- Witness for C1: requesting 500 days on an empty log yields exactly
`min 500 366 = 366` points ending today. -/
theorem getDaily_dense_series_witness :
    (("kg" : String) = "kg" ∨ ("kg" : String) = "lb") ∧ (1 : Int) ≤ 500 ∧
    ∃ pts, GetDaily ⟨[], [], 0, 0⟩ 1 0 500 "kg" 0 = Except.ok pts ∧
      (pts.length : Int) = min 500 366 ∧
      (∀ (k : Nat) (hk : k < pts.length),
        (pts.get ⟨k, hk⟩).day = 0 - (min 500 366 - 1) + k) ∧
      (∃ plast, pts.getLast? = some plast ∧ plast.day = 0) ∧
      (∀ p ∈ pts, (p.weight = none ↔
        ∀ w ∈ (⟨[], [], 0, 0⟩ : DB).weights, ¬ weightInDay 1 0 p.day w)) ∧
      (∀ p ∈ pts, (∀ w ∈ (⟨[], [], 0, 0⟩ : DB).waterEvents, ¬ waterInDay 1 0 p.day w) →
        p.waterLiters = 0) :=
  ⟨Or.inl rfl, by norm_num,
    getDaily_dense_series ⟨[], [], 0, 0⟩ 1 0 500 "kg" 0 (Or.inl rfl) (by norm_num)⟩

/-! ## C7: unit converter -/

/-- C7: `ConvertWeight(v, from, to)` is a pure total function (total by its
Lean type): it returns `v` unchanged when `from = to`, multiplies by
`2.2046226218` for kg→lb, divides by the same constant for lb→kg, and passes
every other pair of unit strings through unchanged. -/
theorem convertWeight_spec (v : ℚ) (f t : String) :
    ConvertWeight v f f = v ∧
    ConvertWeight v "kg" "lb" = v * kgToLb ∧
    ConvertWeight v "lb" "kg" = v / kgToLb ∧
    (f ≠ t → ¬(f = "kg" ∧ t = "lb") → ¬(f = "lb" ∧ t = "kg") →
      ConvertWeight v f t = v) := by
  refine ⟨by simp [ConvertWeight], by simp [ConvertWeight], by simp [ConvertWeight], ?_⟩
  intro h1 h2 h3
  simp [ConvertWeight, h1, h2, h3]

/-- Witness for C7 at a concrete unrecognised unit pair. -/
theorem convertWeight_spec_witness :
    ("st" : String) ≠ "oz" ∧ ConvertWeight 100 "st" "oz" = 100 :=
  ⟨by decide,
    (convertWeight_spec 100 "st" "oz").2.2.2 (by decide) (by decide) (by decide)⟩

/-! ## C6: recordWeight validation -/

/-- C6: `RecordWeight` fails with a validation error iff `value ≤ 0` or the
unit is not `"kg"`/`"lb"`, and on such a failure the event log is unchanged
(the validation failure is never partially applied). -/
theorem recordWeight_validation (db : DB) (u : Int) (value : ℚ) (unit : String)
    (now tz : Int) :
    ((∃ e, (RecordWeight db u value unit now tz).1 = .error e) ↔
      value ≤ 0 ∨ (unit ≠ "kg" ∧ unit ≠ "lb")) ∧
    (∀ e, (RecordWeight db u value unit now tz).1 = .error e →
      (RecordWeight db u value unit now tz).2 = db) := by
  unfold RecordWeight
  split_ifs with h1 h2
  · simp [h1]
  · simp [h2]
  · refine ⟨⟨fun he => ?_, fun hc => ?_⟩, fun e he => ?_⟩
    · obtain ⟨e, he⟩ := he
      simp at he
    · exact absurd hc (by simp [h1, h2, not_or])
    · simp at he

/-- Witness for C6: a negative value is rejected and leaves the log unchanged. -/
theorem recordWeight_validation_witness :
    (∃ e, (RecordWeight ⟨[], [], 0, 0⟩ 1 (-1) "kg" 0 0).1 = Except.error e) ∧
    (RecordWeight ⟨[], [], 0, 0⟩ 1 (-1) "kg" 0 0).2 = ⟨[], [], 0, 0⟩ := by
  obtain ⟨e, he⟩ := (recordWeight_validation ⟨[], [], 0, 0⟩ 1 (-1) "kg" 0 0).1.mpr
    (Or.inl (by norm_num))
  exact ⟨⟨e, he⟩, (recordWeight_validation ⟨[], [], 0, 0⟩ 1 (-1) "kg" 0 0).2 e he⟩

/-! ## C8: error propagation -/

/-- `svcDayStep` starting from an error is that error. -/
theorem svcDayStep_error (r : ChartsRepoCalls) (unit : String) (d : Int) (e : String) :
    svcDayStep r unit d (.error e) = .error e := rfl

/-- A successful `svcDayStep` means both repository calls for that day
succeeded and the accumulator was not an error. -/
theorem svcDayStep_ok (r : ChartsRepoCalls) (unit : String) (d : Int)
    (acc : Except String (List DayPoint)) (pts : List DayPoint)
    (h : svcDayStep r unit d acc = .ok pts) :
    (r.waterTotal d).2 = none ∧ (r.latestForDay d).2 = none ∧
      ∃ pts0, acc = .ok pts0 := by
  cases acc with
  | error e => rw [svcDayStep_error] at h; exact absurd h (by simp)
  | ok pts0 =>
    unfold svcDayStep at h
    rcases hw : r.waterTotal d with ⟨wv, we⟩
    rw [hw] at h
    cases we with
    | some e => simp at h
    | none =>
      rcases hl : r.latestForDay d with ⟨lv, le⟩
      rw [hl] at h
      cases le with
      | some e => simp at h
      | none => exact ⟨by simp [hw], by simp [hl], pts0, rfl⟩

/-- The `GetDaily` loop starting from an error stays that error. -/
theorem svcFold_error (r : ChartsRepoCalls) (unit : String) (dayOf : Nat → Int) :
    ∀ (ks : List Nat) (e : String),
      ks.foldl (fun acc k => svcDayStep r unit (dayOf k) acc) (.error e) = .error e
  | [], _ => rfl
  | k :: ks, e => by
    rw [List.foldl_cons, svcDayStep_error]
    exact svcFold_error r unit dayOf ks e

/-- If the `GetDaily` loop ends in `ok`, every repository call it made
succeeded. -/
theorem svcFold_ok (r : ChartsRepoCalls) (unit : String) (dayOf : Nat → Int) :
    ∀ (ks : List Nat) (acc : Except String (List DayPoint)) (pts : List DayPoint),
      ks.foldl (fun acc k => svcDayStep r unit (dayOf k) acc) acc = .ok pts →
      ∀ k ∈ ks, (r.waterTotal (dayOf k)).2 = none ∧ (r.latestForDay (dayOf k)).2 = none
  | [], acc, pts => by simp
  | k :: ks, acc, pts => fun h x hx => by
    rw [List.foldl_cons] at h
    have hstep : ∃ pts1, svcDayStep r unit (dayOf k) acc = .ok pts1 := by
      cases hs : svcDayStep r unit (dayOf k) acc with
      | error e =>
        rw [hs, svcFold_error] at h
        exact absurd h (by simp)
      | ok pts1 => exact ⟨pts1, rfl⟩
    obtain ⟨pts1, hs⟩ := hstep
    rcases List.mem_cons.mp hx with rfl | hx'
    · obtain ⟨h1, h2, _⟩ := svcDayStep_ok r unit (dayOf x) acc pts1 hs
      exact ⟨h1, h2⟩
    · rw [hs] at h
      exact svcFold_ok r unit dayOf ks (.ok pts1) pts h x hx'

/-- C8 counterexample: with a repository whose deletion succeeds but whose
latest-for-today recomputation fails, `WeightService.UndoLast` returns **no**
error (the source discards it: `entry, _ := ...`), contradicting the claim
that the operation errors whenever that recomputation fails. -/
theorem weightUndoLast_swallows_recompute_error :
    ((WeightRepoCalls.mk (fun _ _ _ => (0, none)) (true, none)
        (fun _ => (none, some "storage failure"))
        (fun _ => ([], none))).latestForDay 0).2 = some "storage failure" ∧
    (SvcWeightUndoLast
        (WeightRepoCalls.mk (fun _ _ _ => (0, none)) (true, none)
          (fun _ => (none, some "storage failure")) (fun _ => ([], none))) 0).2
      = none :=
  ⟨rfl, rfl⟩

/-- C8 amended: every component operation fails fast on storage failure —
whenever an Event Log Port call made during the operation returns an error,
the operation returns an error (GetTodayWeight, RecordWeight past validation,
ListRecent, GetTodayTotal, RecordEvent past validation, water ListRecent and
water UndoLast propagate each call's error; GetDaily returns `ok` only if
every call it made succeeded) — with the single exception that weight
undoLast ignores the error of its latest-for-today recomputation, returning
success with a nil entry, while still propagating a deletion failure. -/
theorem errorPropagation_amended (r : WeightRepoCalls) (ra : WaterRepoCalls)
    (rc : ChartsRepoCalls) (today todayIdx days now tz limit : Int) (unit : String)
    (value delta : ℚ) :
    (SvcGetTodayWeight r today).2 = (r.latestForDay today).2 ∧
    (0 < value → (unit = "kg" ∨ unit = "lb") →
      (∀ e, (r.addEvent value unit now).2 = some e →
        (SvcRecordWeight r value unit now tz).2 = some e) ∧
      ((r.addEvent value unit now).2 = none →
        (SvcRecordWeight r value unit now tz).2
          = (r.latestForDay (formatLocalDay tz now)).2)) ∧
    (SvcListRecentWeight r limit).2 = (r.listRecent limit).2 ∧
    (∀ b e, r.deleteLatest = (b, some e) →
      SvcWeightUndoLast r today = ((false, none, today), some e)) ∧
    (∀ b, r.deleteLatest = (b, none) →
      SvcWeightUndoLast r today = ((b, (r.latestForDay today).1, today), none)) ∧
    (SvcGetTodayTotal ra today).2 = (ra.totalForDay today).2 ∧
    (delta ≠ 0 → -10 ≤ delta → delta ≤ 10 →
      SvcRecordWaterEvent ra delta now = ra.addEvent delta now) ∧
    (SvcListRecentWater ra limit).2 = (ra.listRecent limit).2 ∧
    (∀ v e, ra.listRecent 1 = (v, some e) → (SvcWaterUndoLast ra).2 = some e) ∧
    (∀ it rest e, ra.listRecent 1 = (it :: rest, none) → ra.deleteEvent it.id = some e →
      (SvcWaterUndoLast ra).2 = some e) ∧
    (∀ pts, SvcGetDaily rc todayIdx days unit = .ok pts →
      ∀ (k : Nat), k < (if days > 366 then (366 : Int) else days).toNat →
        (rc.waterTotal (todayIdx -
          ((if days > 366 then (366 : Int) else days) - 1 - (k : Int)))).2 = none ∧
        (rc.latestForDay (todayIdx -
          ((if days > 366 then (366 : Int) else days) - 1 - (k : Int)))).2 = none) := by
  refine ⟨rfl, ?_, rfl, ?_, ?_, rfl, ?_, rfl, ?_, ?_, ?_⟩
  · intro hv hu
    have h1 : ¬ value ≤ 0 := not_le.mpr hv
    have h2 : ¬(unit ≠ "kg" ∧ unit ≠ "lb") := by rcases hu with h | h <;> simp [h]
    constructor
    · intro e he
      unfold SvcRecordWeight
      rw [if_neg h1, if_neg h2]
      rcases ha : r.addEvent value unit now with ⟨i, ae⟩
      rw [ha] at he
      cases ae with
      | none => simp at he
      | some e' => simpa using he
    · intro hnone
      unfold SvcRecordWeight
      rw [if_neg h1, if_neg h2]
      rcases ha : r.addEvent value unit now with ⟨i, ae⟩
      rw [ha] at hnone
      cases ae with
      | some e' => simp at hnone
      | none => rfl
  · intro b e h
    unfold SvcWeightUndoLast
    rw [h]
  · intro b h
    unfold SvcWeightUndoLast
    rw [h]
  · intro hz hlo hhi
    unfold SvcRecordWaterEvent
    rw [if_neg (by push_neg; exact ⟨hz, hlo, hhi⟩)]
  · intro v e h
    unfold SvcWaterUndoLast
    rw [h]
  · intro it rest e hl hd
    unfold SvcWaterUndoLast
    rw [hl]
    simp [hd]
  · intro pts hok k hk
    by_cases hcond : unit ≠ "kg" ∧ unit ≠ "lb"
    · simp [SvcGetDaily, hcond] at hok
    · simp only [SvcGetDaily, hcond, if_false] at hok
      exact svcFold_ok rc unit
        (fun k => todayIdx - ((if days > 366 then (366 : Int) else days) - 1 - (k : Int)))
        (List.range (if days > 366 then (366 : Int) else days).toNat) (.ok []) pts hok
        k (List.mem_range.mpr hk)

/-- Witness for C8's amended theorem: a failing weight delete, a valid water
delta past validation, and a failing water list call, each propagated. -/
theorem errorPropagation_amended_witness :
    SvcWeightUndoLast
        ⟨fun _ _ _ => (0, none), (false, some "boom"), fun _ => (none, none),
          fun _ => ([], none)⟩ 0
      = ((false, none, 0), some "boom") ∧
    SvcRecordWaterEvent
        ⟨fun _ _ => (7, none), fun _ => none, fun _ => ([], some "net"),
          fun _ => (0, none)⟩ 1 100
      = (WaterRepoCalls.mk (fun _ _ => (7, none)) (fun _ => none)
          (fun _ => ([], some "net")) (fun _ => (0, none))).addEvent 1 100 ∧
    (SvcWaterUndoLast
        ⟨fun _ _ => (7, none), fun _ => none, fun _ => ([], some "net"),
          fun _ => (0, none)⟩).2 = some "net" :=
  ⟨(errorPropagation_amended
      ⟨fun _ _ _ => (0, none), (false, some "boom"), fun _ => (none, none),
        fun _ => ([], none)⟩
      ⟨fun _ _ => (7, none), fun _ => none, fun _ => ([], some "net"),
        fun _ => (0, none)⟩
      ⟨fun _ => (0, none), fun _ => (none, none)⟩
      0 0 0 100 0 5 "kg" 1 1).2.2.2.1 false "boom" rfl,
   (errorPropagation_amended
      ⟨fun _ _ _ => (0, none), (false, some "boom"), fun _ => (none, none),
        fun _ => ([], none)⟩
      ⟨fun _ _ => (7, none), fun _ => none, fun _ => ([], some "net"),
        fun _ => (0, none)⟩
      ⟨fun _ => (0, none), fun _ => (none, none)⟩
      0 0 0 100 0 5 "kg" 1 1).2.2.2.2.2.2.1 (by norm_num) (by norm_num) (by norm_num),
   (errorPropagation_amended
      ⟨fun _ _ _ => (0, none), (false, some "boom"), fun _ => (none, none),
        fun _ => ([], none)⟩
      ⟨fun _ _ => (7, none), fun _ => none, fun _ => ([], some "net"),
        fun _ => (0, none)⟩
      ⟨fun _ => (0, none), fun _ => (none, none)⟩
      0 0 0 100 0 5 "kg" 1 1).2.2.2.2.2.2.2.2.1 [] "net" rfl⟩

/-! ## C10: per-user scoping of aggregation reads -/

/-- C10 counterexample: two logs whose user-1 events agree as a **set** (they
are permutations of each other, all owned by user 1) but yield different
latest-weight answers, because with tied `createdAt` the scan keeps the event
that comes first in slice order. -/
theorem aggregation_order_sensitive :
    (⟨[⟨1, 1, none, 70, "kg", 0⟩, ⟨2, 1, none, 80, "kg", 0⟩], [], 2, 0⟩ : DB).weights.Perm
      (⟨[⟨2, 1, none, 80, "kg", 0⟩, ⟨1, 1, none, 70, "kg", 0⟩], [], 2, 0⟩ : DB).weights ∧
    (∀ w, w ∈ (⟨[⟨1, 1, none, 70, "kg", 0⟩, ⟨2, 1, none, 80, "kg", 0⟩], [], 2, 0⟩ : DB).weights
        ↔ w ∈ (⟨[⟨2, 1, none, 80, "kg", 0⟩, ⟨1, 1, none, 70, "kg", 0⟩], [], 2, 0⟩ : DB).weights) ∧
    LatestWeightForLocalDay ⟨[⟨1, 1, none, 70, "kg", 0⟩, ⟨2, 1, none, 80, "kg", 0⟩], [], 2, 0⟩
        1 0 0
      ≠ LatestWeightForLocalDay ⟨[⟨2, 1, none, 80, "kg", 0⟩, ⟨1, 1, none, 70, "kg", 0⟩], [], 2, 0⟩
        1 0 0 :=
  ⟨List.Perm.swap _ _ _, fun _ => (List.Perm.swap _ _ _).mem_iff, by decide⟩

/-- C10 amended: every aggregation read depends only on the ordered sequence
of the queried user's events — two logs whose user-filtered subsequences
coincide give identical results for all five operations, regardless of other
users' events. -/
theorem aggregation_user_scoped (db1 db2 : DB) (u d tz limit todayIdx days : Int)
    (unit : String)
    (hw : db1.weights.filter (fun w => w.userId = u)
        = db2.weights.filter (fun w => w.userId = u))
    (ha : db1.waterEvents.filter (fun w => w.userId = u)
        = db2.waterEvents.filter (fun w => w.userId = u)) :
    LatestWeightForLocalDay db1 u d tz = LatestWeightForLocalDay db2 u d tz ∧
    WaterTotalForLocalDay db1 u d tz = WaterTotalForLocalDay db2 u d tz ∧
    ListRecentWeightEvents db1 u limit tz = ListRecentWeightEvents db2 u limit tz ∧
    ListRecentWaterEvents db1 u limit = ListRecentWaterEvents db2 u limit ∧
    GetDaily db1 u todayIdx days unit tz = GetDaily db2 u todayIdx days unit tz := by
  have hlat : ∀ dd, LatestWeightForLocalDay db1 u dd tz = LatestWeightForLocalDay db2 u dd tz := by
    intro dd
    unfold LatestWeightForLocalDay
    rw [foldl_congr_filter (latestStep u tz dd) (fun w => w.userId = u)
        (fun b x hx => by simp only [decide_eq_false_iff_not] at hx; simp [latestStep, hx])
        db1.weights none,
      foldl_congr_filter (latestStep u tz dd) (fun w => w.userId = u)
        (fun b x hx => by simp only [decide_eq_false_iff_not] at hx; simp [latestStep, hx])
        db2.weights none,
      hw]
  have hwat : ∀ dd, WaterTotalForLocalDay db1 u dd tz = WaterTotalForLocalDay db2 u dd tz := by
    intro dd
    unfold WaterTotalForLocalDay
    rw [foldl_congr_filter _ (fun w => w.userId = u)
        (fun b x hx => by simp only [decide_eq_false_iff_not] at hx; simp [hx])
        db1.waterEvents 0,
      foldl_congr_filter _ (fun w => w.userId = u)
        (fun b x hx => by simp only [decide_eq_false_iff_not] at hx; simp [hx])
        db2.waterEvents 0,
      ha]
  have hmk : ∀ dd, mkDayPoint db1 u dd unit tz = mkDayPoint db2 u dd unit tz := by
    intro dd
    unfold mkDayPoint
    rw [hlat dd, hwat dd]
  refine ⟨hlat d, hwat d, ?_, ?_, ?_⟩
  · simp only [ListRecentWeightEvents, hw]
  · simp only [ListRecentWaterEvents, ha]
  · simp only [GetDaily, hmk]

/-- Witness for C10's amended theorem: adding another user's event does not
change any of user 1's reads. -/
theorem aggregation_user_scoped_witness :
    LatestWeightForLocalDay
        ⟨[⟨1, 1, none, 70, "kg", 10⟩, ⟨2, 2, none, 99, "kg", 20⟩], [], 2, 0⟩ 1 0 0
      = LatestWeightForLocalDay ⟨[⟨1, 1, none, 70, "kg", 10⟩], [], 1, 0⟩ 1 0 0 ∧
    WaterTotalForLocalDay
        ⟨[⟨1, 1, none, 70, "kg", 10⟩, ⟨2, 2, none, 99, "kg", 20⟩], [], 2, 0⟩ 1 0 0
      = WaterTotalForLocalDay ⟨[⟨1, 1, none, 70, "kg", 10⟩], [], 1, 0⟩ 1 0 0 ∧
    ListRecentWeightEvents
        ⟨[⟨1, 1, none, 70, "kg", 10⟩, ⟨2, 2, none, 99, "kg", 20⟩], [], 2, 0⟩ 1 5 0
      = ListRecentWeightEvents ⟨[⟨1, 1, none, 70, "kg", 10⟩], [], 1, 0⟩ 1 5 0 ∧
    ListRecentWaterEvents
        ⟨[⟨1, 1, none, 70, "kg", 10⟩, ⟨2, 2, none, 99, "kg", 20⟩], [], 2, 0⟩ 1 5
      = ListRecentWaterEvents ⟨[⟨1, 1, none, 70, "kg", 10⟩], [], 1, 0⟩ 1 5 ∧
    GetDaily ⟨[⟨1, 1, none, 70, "kg", 10⟩, ⟨2, 2, none, 99, "kg", 20⟩], [], 2, 0⟩ 1 0 7 "kg" 0
      = GetDaily ⟨[⟨1, 1, none, 70, "kg", 10⟩], [], 1, 0⟩ 1 0 7 "kg" 0 :=
  aggregation_user_scoped
    ⟨[⟨1, 1, none, 70, "kg", 10⟩, ⟨2, 2, none, 99, "kg", 20⟩], [], 2, 0⟩
    ⟨[⟨1, 1, none, 70, "kg", 10⟩], [], 1, 0⟩ 1 0 0 5 0 7 "kg" (by decide) (by decide)

end Vitals
